import Mathlib

/-!
# Verification of the midi_bridge crate

Shallow embedding of the midi_bridge Rust crate
(`src/apps/deno-notebooks/native/midi_bridge/src/{packet.rs, input.rs, lib.rs}`)
and proofs about its wire codec, coalescing state store, note queue,
ingest validation, dispatch tick and handle table.

Machine integers are modelled as `Nat`/`Int`; wrapping casts (`as u32`,
`to_le_bytes`, `i16` two-complement encoding, the `u32` handle counter)
are made explicit with `% 2 ^ w`.  Byte buffers are `List Nat` whose
elements are below 256 whenever the encoded fields are in range.
-/

namespace MidiBridge

/-! ## Wire codec (`packet.rs`) -/

/-- Rust `pub const MAGIC: u32 = 0x4D494452;` -/
def MAGIC : Nat := 0x4D494452

/-- Rust `pub const VERSION: u16 = 1;` -/
def VERSION : Nat := 1

/-- Rust `pub const KIND_CC: u8 = 1;` -/
def KIND_CC : Nat := 1

/-- Rust `pub const KIND_PB: u8 = 2;` -/
def KIND_PB : Nat := 2

/-- Rust `pub const KIND_CH_PRESS: u8 = 3;` -/
def KIND_CH_PRESS : Nat := 3

/-- Rust `pub const KIND_POLY_PRESS: u8 = 4;` -/
def KIND_POLY_PRESS : Nat := 4

/-- Rust `pub const KIND_PROG: u8 = 5;` -/
def KIND_PROG : Nat := 5

/-- Rust `pub const KIND_NOTE: u8 = 6;` -/
def KIND_NOTE : Nat := 6

/-- Rust `pub struct Record` from `packet.rs`: `ts_us: u64`, `kind: u8`,
`channel: u8`, `a: u8`, `b: u8`, `v16: i16`, `extra: u16`.
Fields are `Nat` (and `Int` for the signed `v16`); theorems carry the
range hypotheses of the Rust types where they matter. -/
structure Record where
  ts_us : Nat
  kind : Nat
  channel : Nat
  a : Nat
  b : Nat
  v16 : Int
  extra : Nat
deriving DecidableEq, Repr

/-- A `Record` whose fields are inside the ranges of the Rust field types
(`u64`, `u8`, `u8`, `u8`, `u8`, `i16`, `u16`). -/
def Record.wf (r : Record) : Prop :=
  r.ts_us < 2 ^ 64 ∧ r.kind < 256 ∧ r.channel < 256 ∧ r.a < 256 ∧
    r.b < 256 ∧ -32768 ≤ r.v16 ∧ r.v16 < 32768 ∧ r.extra < 2 ^ 16

instance (r : Record) : Decidable r.wf := by
  unfold Record.wf
  infer_instance

/-- Rust `v.to_le_bytes()` for a `w`-byte unsigned integer: the `w` little-endian
bytes of `v % 256 ^ w`. -/
def toLE : Nat → Nat → List Nat
  | 0, _ => []
  | w + 1, v => v % 256 :: toLE w (v / 256)

/-- The 16 bytes pushed for one record inside the `for r in records` loop of
`encode_packet`: `push_u64 ts_us`, `push kind`, `push channel`, `push a`,
`push b`, `push_i16 v16`, `push_u16 extra`.  `i16::to_le_bytes` writes the
two-complement bytes, i.e. the bytes of `v16 mod 2 ^ 16`. -/
def encRecord (r : Record) : List Nat :=
  toLE 8 r.ts_us ++ [r.kind, r.channel, r.a, r.b] ++
    toLE 2 (r.v16 % 65536).toNat ++ toLE 2 r.extra

/-- Rust `encode_packet` from `packet.rs`: the 32 header bytes
(`MAGIC`, `VERSION`, `flags`, `dispatch_ts_us`, `dropped_raw`,
`dropped_note`, `records.len() as u32`, reserved `0`) followed by 16 bytes
per record.  The `as u32` cast of the length is the truncation performed by
`toLE 4`. -/
def encode_packet (records : List Record) (dispatch_ts_us : Nat)
    (dropped_raw : Nat) (dropped_note : Nat) (flags : Nat) : List Nat :=
  toLE 4 MAGIC ++ toLE 2 VERSION ++ toLE 2 flags ++ toLE 8 dispatch_ts_us ++
    toLE 4 dropped_raw ++ toLE 4 dropped_note ++ toLE 4 records.length ++
    toLE 4 0 ++ records.flatMap encRecord

/-- Little-endian read of `w` bytes from the front of a byte list
(missing bytes read as 0). -/
def readLEAux : Nat → List Nat → Nat
  | 0, _ => 0
  | _ + 1, [] => 0
  | w + 1, b :: rest => b + 256 * readLEAux w rest

/-- Little-endian read of `w` bytes of a buffer starting at offset `off`:
how a consumer decodes one header or record field by its byte offset. -/
def readLE (buf : List Nat) (off w : Nat) : Nat :=
  readLEAux w (buf.drop off)

/-- Interpret a 16-bit unsigned readback as a signed `i16`. -/
def decodeI16 (u : Nat) : Int :=
  if u < 32768 then (u : Int) else (u : Int) - 65536

/-- A concrete record used by witnesses and counterexamples. -/
def sampleRecord : Record :=
  { ts_us := 5000, kind := 6, channel := 2, a := 60, b := 100, v16 := -7,
    extra := 1 }

/-! ## Coalescing state store (`input.rs`) -/

/-- Rust `const RAW_QUEUE_CAP: usize = 4096;` -/
def RAW_QUEUE_CAP : Nat := 4096

/-- Rust `const NOTE_QUEUE_CAP: usize = 4096;` -/
def NOTE_QUEUE_CAP : Nat := 4096

/-- Rust `struct RawMsg` from `input.rs`: `ts_us: u64`, `status: u8`, `data1: u8`,
`data2: u8`, `len: u8`. -/
structure RawMsg where
  ts_us : Nat
  status : Nat
  data1 : Nat
  data2 : Nat
  len : Nat
deriving DecidableEq, Repr

/-- Rust `struct NoteEdge` from `input.rs`: `ts_us: u64`, `channel: u8`,
`note: u8`, `velocity: u8`, `on: bool` (field `on` is renamed `isOn`, `on` being a Lean keyword). -/
structure NoteEdge where
  ts_us : Nat
  channel : Nat
  note : Nat
  velocity : Nat
  isOn : Bool
deriving DecidableEq, Repr

/-- Rust `struct State` from `input.rs`.  The Rust fixed arrays
(`[[u8; 128]; 16]`, `[i16; 16]`, `[[u64; 2]; 16]`, ...) are modelled as
total functions from indices; the two `u64` dirty words of a channel are a
pair.  Rust array indexing panics out of bounds, so all reachable accesses
use channel < 16 and index < 128; theorems carry those bounds where they
matter. -/
structure State where
  cc : Nat → Nat → Nat
  cc_ts : Nat → Nat → Nat
  cc_dirty : Nat → Nat × Nat
  pb : Nat → Int
  pb_ts : Nat → Nat
  pb_dirty : Nat → Bool
  ch_pressure : Nat → Nat
  ch_pressure_ts : Nat → Nat
  ch_pressure_dirty : Nat → Bool
  program : Nat → Nat
  program_ts : Nat → Nat
  program_dirty : Nat → Bool
  poly_pressure : Nat → Nat → Nat
  poly_pressure_ts : Nat → Nat → Nat
  poly_pressure_dirty : Nat → Nat × Nat

/-- Rust `impl Default for State`: every value, timestamp and dirty flag zeroed. -/
def initState : State :=
  { cc := fun _ _ => 0
    cc_ts := fun _ _ => 0
    cc_dirty := fun _ => (0, 0)
    pb := fun _ => 0
    pb_ts := fun _ => 0
    pb_dirty := fun _ => false
    ch_pressure := fun _ => 0
    ch_pressure_ts := fun _ => 0
    ch_pressure_dirty := fun _ => false
    program := fun _ => 0
    program_ts := fun _ => 0
    program_dirty := fun _ => false
    poly_pressure := fun _ _ => 0
    poly_pressure_ts := fun _ _ => 0
    poly_pressure_dirty := fun _ => (0, 0) }

/-- Rust `fn set_bit(bits: &mut [u64; 2], index: u8)`:
`bits[index / 64] |= 1u64 << (index % 64)`.  For `index < 128` the shift is
below 64, so the `u64` OR never wraps and the plain `Nat` OR is exact. -/
def set_bit (bits : Nat × Nat) (index : Nat) : Nat × Nat :=
  if index / 64 = 0 then (bits.1 ||| 1 <<< (index % 64), bits.2)
  else (bits.1, bits.2 ||| 1 <<< (index % 64))

/-- Observer for a dirty bitset: whether the bit of `index` is set in the
two-word bitset (word `index / 64`, bit `index % 64`). -/
def bitIsSet (bits : Nat × Nat) (index : Nat) : Bool :=
  if index / 64 = 0 then bits.1.testBit (index % 64)
  else bits.2.testBit (index % 64)

/-- Rust `fn update_cc`: write value, timestamp and dirty bit only when the
incoming value differs from the stored one. -/
def update_cc (state : State) (channel ctrl val ts_us : Nat) : State :=
  if state.cc channel ctrl ≠ val then
    { state with
      cc := fun c i => if c = channel ∧ i = ctrl then val else state.cc c i
      cc_ts := fun c i => if c = channel ∧ i = ctrl then ts_us else state.cc_ts c i
      cc_dirty := fun c => if c = channel then set_bit (state.cc_dirty c) ctrl
        else state.cc_dirty c }
  else state

/-- Rust `fn update_pitch_bend`: `raw = ((msb as i16) << 7) | (lsb as i16)`,
`bend = raw - 8192`, stored only on change.  For bytes `msb, lsb ≤ 255` the
`i16` shift and OR never overflow, so `raw` is the plain `Nat`
`(msb <<< 7) ||| lsb`. -/
def update_pitch_bend (state : State) (channel lsb msb ts_us : Nat) : State :=
  let raw : Nat := (msb <<< 7) ||| lsb
  let bend : Int := (raw : Int) - 8192
  if state.pb channel ≠ bend then
    { state with
      pb := fun c => if c = channel then bend else state.pb c
      pb_ts := fun c => if c = channel then ts_us else state.pb_ts c
      pb_dirty := fun c => if c = channel then true else state.pb_dirty c }
  else state

/-- Rust `fn update_ch_pressure`: stored only on change. -/
def update_ch_pressure (state : State) (channel pressure ts_us : Nat) : State :=
  if state.ch_pressure channel ≠ pressure then
    { state with
      ch_pressure := fun c => if c = channel then pressure else state.ch_pressure c
      ch_pressure_ts := fun c => if c = channel then ts_us else state.ch_pressure_ts c
      ch_pressure_dirty := fun c => if c = channel then true else state.ch_pressure_dirty c }
  else state

/-- Rust `fn update_program`: stored only on change. -/
def update_program (state : State) (channel program ts_us : Nat) : State :=
  if state.program channel ≠ program then
    { state with
      program := fun c => if c = channel then program else state.program c
      program_ts := fun c => if c = channel then ts_us else state.program_ts c
      program_dirty := fun c => if c = channel then true else state.program_dirty c }
  else state

/-- Rust `fn update_poly_pressure`: stored only on change. -/
def update_poly_pressure (state : State) (channel note pressure ts_us : Nat) : State :=
  if state.poly_pressure channel note ≠ pressure then
    { state with
      poly_pressure := fun c i => if c = channel ∧ i = note then pressure
        else state.poly_pressure c i
      poly_pressure_ts := fun c i => if c = channel ∧ i = note then ts_us
        else state.poly_pressure_ts c i
      poly_pressure_dirty := fun c => if c = channel then
        set_bit (state.poly_pressure_dirty c) note else state.poly_pressure_dirty c }
  else state

/-- Rust `u64::trailing_zeros`, fuel-structured: keep halving while even.  The
fuel `n` given by `trailing_zeros` always suffices for `n ≠ 0`, since the
value turns odd after at most `log2 n` halvings. -/
def tzGo : Nat → Nat → Nat
  | 0, _ => 0
  | fuel + 1, n => if n % 2 = 1 then 0 else 1 + tzGo fuel (n / 2)

/-- Rust `val.trailing_zeros()` for the nonzero `val` of the `collect_bitset`
loop. -/
def trailing_zeros (n : Nat) : Nat := tzGo n n

/-- The inner `while val != 0` loop of `fn collect_bitset`: emit
`block * 64 + val.trailing_zeros()`, clear the lowest set bit with
`val &= val - 1`, repeat.  Fuel-structured with fuel `val`; one set bit is
cleared per step, so the value strictly decreases and fuel `val` always
suffices. -/
def collectGo (base : Nat) : Nat → Nat → List Nat
  | 0, _ => []
  | fuel + 1, val =>
      if val = 0 then []
      else (base + trailing_zeros val) :: collectGo base fuel (val &&& (val - 1))

/-- Rust `fn collect_bitset(bits: [u64; 2]) -> Vec<u8>`: scan block 0 then
block 1, emitting ascending set-bit indices via trailing-zero extraction. -/
def collect_bitset (bits : Nat × Nat) : List Nat :=
  collectGo 0 bits.1 bits.1 ++ collectGo 64 bits.2 bits.2

/-- The note-queue half of `SharedState`: the `notes` `VecDeque` (front =
head of the list) and the `dropped_note` counter.  `state` is the
parameter cache behind the `state` mutex. -/
structure CoalState where
  state : State
  notes : List NoteEdge
  dropped_note : Nat

/-- Initial `SharedState::new()` contents: default state, empty queue,
zero counter. -/
def initCoal : CoalState :=
  { state := initState, notes := [], dropped_note := 0 }

/-- Rust `fn push_note`: if the queue is full (`len >= NOTE_QUEUE_CAP`), pop the
oldest edge and count one note drop; then push the new edge at the back. -/
def push_note (cs : CoalState) (ts_us channel note velocity : Nat) (isOn : Bool) :
    CoalState :=
  let edge : NoteEdge :=
    { ts_us := ts_us, channel := channel, note := note, velocity := velocity,
      isOn := isOn }
  if cs.notes.length ≥ NOTE_QUEUE_CAP then
    { cs with notes := cs.notes.tail ++ [edge], dropped_note := cs.dropped_note + 1 }
  else
    { cs with notes := cs.notes ++ [edge] }

/-- Rust `fn handle_raw`: route by the high nibble of the status byte, with the
per-status minimum length checks; under-length messages fall through with
no state change. -/
def handle_raw (raw : RawMsg) (cs : CoalState) : CoalState :=
  let status := raw.status &&& 0xF0
  let channel := raw.status &&& 0x0F
  if status = 0x80 then
    if raw.len ≥ 3 then push_note cs raw.ts_us channel raw.data1 raw.data2 false
    else cs
  else if status = 0x90 then
    if raw.len ≥ 3 then
      push_note cs raw.ts_us channel raw.data1 raw.data2 (raw.data2 != 0)
    else cs
  else if status = 0xA0 then
    if raw.len ≥ 3 then
      { cs with state := update_poly_pressure cs.state channel raw.data1 raw.data2 raw.ts_us }
    else cs
  else if status = 0xB0 then
    if raw.len ≥ 3 then
      { cs with state := update_cc cs.state channel raw.data1 raw.data2 raw.ts_us }
    else cs
  else if status = 0xC0 then
    if raw.len ≥ 2 then
      { cs with state := update_program cs.state channel raw.data1 raw.ts_us }
    else cs
  else if status = 0xD0 then
    if raw.len ≥ 2 then
      { cs with state := update_ch_pressure cs.state channel raw.data1 raw.ts_us }
    else cs
  else if status = 0xE0 then
    if raw.len ≥ 3 then
      { cs with state := update_pitch_bend cs.state channel raw.data1 raw.data2 raw.ts_us }
    else cs
  else cs

/-! ## Ingest stage (the driver callback closure in `open_input`) -/

/-- The producer side of the bounded hand-off channel plus the
`dropped_raw` counter: a `crossbeam_channel::bounded(RAW_QUEUE_CAP)`
modelled as a capped list. -/
structure IngestState where
  queue : List RawMsg
  dropped_raw : Nat
deriving DecidableEq, Repr

/-- Rust `raw_tx.try_send(raw)` followed by the callback's
`if ... is_err() { dropped_raw.fetch_add(1) }`: on a full channel the send
fails immediately (never blocks, never retries) and one raw drop is
counted; otherwise the message is appended. -/
def try_send_count (s : IngestState) (raw : RawMsg) : IngestState :=
  if s.queue.length ≥ RAW_QUEUE_CAP then
    { s with dropped_raw := s.dropped_raw + 1 }
  else
    { s with queue := s.queue ++ [raw] }

/-- The driver callback closure in `open_input`: drop when stopped, when
the message is empty, or when the status byte is outside `[0x80, 0xEF]`;
otherwise build a `RawMsg` (missing data bytes default to 0, length is
clamped to a byte) and try a non-blocking send. -/
def input_callback (stopped : Bool) (ts : Nat) (msg : List Nat)
    (s : IngestState) : IngestState :=
  if stopped then s
  else if msg = [] then s
  else if msg.headD 0 < 0x80 ∨ 0xF0 ≤ msg.headD 0 then s
  else
    try_send_count s
      { ts_us := ts, status := msg.headD 0, data1 := msg.getD 1 0,
        data2 := msg.getD 2 0, len := min msg.length 255 }

/-! ## Dispatch tick (the body of one `dispatch_loop` iteration) -/

/-- The values a dispatch tick works on, captured at the top of the loop
body: the parameter cache and note queue contents, the two drop counters
as returned by `swap(0)`, and the elapsed-time header timestamp. -/
structure DispatchSnapshot where
  state : State
  notes : List NoteEdge
  dropped_raw : Nat
  dropped_note : Nat
  dispatch_ts_us : Nat

/-- The record built for one drained `NoteEdge` in `dispatch_loop`. -/
def noteRecord (edge : NoteEdge) : Record :=
  { ts_us := edge.ts_us, kind := KIND_NOTE, channel := edge.channel,
    a := edge.note, b := edge.velocity, v16 := 0,
    extra := if edge.isOn then 1 else 0 }

/-- The controller records pushed for one channel: one per dirty bit of
`cc_dirty[ch]`, in `collect_bitset` order. -/
def ccRecords (st : State) (ch : Nat) : List Record :=
  (collect_bitset (st.cc_dirty ch)).map fun cc =>
    { ts_us := st.cc_ts ch cc, kind := KIND_CC, channel := ch, a := cc,
      b := st.cc ch cc, v16 := 0, extra := 0 }

/-- The pitch-bend record pushed for one channel, when dirty. -/
def pbRecords (st : State) (ch : Nat) : List Record :=
  if st.pb_dirty ch then
    [{ ts_us := st.pb_ts ch, kind := KIND_PB, channel := ch, a := 0, b := 0,
       v16 := st.pb ch, extra := 0 }]
  else []

/-- The channel-pressure record pushed for one channel, when dirty. -/
def chPressRecords (st : State) (ch : Nat) : List Record :=
  if st.ch_pressure_dirty ch then
    [{ ts_us := st.ch_pressure_ts ch, kind := KIND_CH_PRESS, channel := ch,
       a := 0, b := st.ch_pressure ch, v16 := 0, extra := 0 }]
  else []

/-- The program record pushed for one channel, when dirty. -/
def progRecords (st : State) (ch : Nat) : List Record :=
  if st.program_dirty ch then
    [{ ts_us := st.program_ts ch, kind := KIND_PROG, channel := ch, a := 0,
       b := st.program ch, v16 := 0, extra := 0 }]
  else []

/-- The poly-pressure records pushed for one channel: one per dirty bit of
`poly_pressure_dirty[ch]`, in `collect_bitset` order. -/
def polyRecords (st : State) (ch : Nat) : List Record :=
  (collect_bitset (st.poly_pressure_dirty ch)).map fun note =>
    { ts_us := st.poly_pressure_ts ch note, kind := KIND_POLY_PRESS,
      channel := ch, a := note, b := st.poly_pressure ch note, v16 := 0,
      extra := 0 }

/-- Everything `dispatch_loop` pushes for channel `ch` inside the state
lock, in emission order: controllers, pitch bend, channel pressure,
program, poly pressure. -/
def channelRecords (st : State) (ch : Nat) : List Record :=
  ccRecords st ch ++ pbRecords st ch ++ chPressRecords st ch ++
    progRecords st ch ++ polyRecords st ch

/-- The full unsorted `records` vector of one tick: all note edges drained
FIFO first, then channels 0–15 in ascending order. -/
def collectedRecords (snap : DispatchSnapshot) : List Record :=
  snap.notes.map noteRecord ++ (List.range 16).flatMap (channelRecords snap.state)

/-- The clears `dispatch_loop` performs while scanning: every dirty bitset
and flag of every channel is zeroed. -/
def clear_dirty (st : State) : State :=
  { st with
    cc_dirty := fun _ => (0, 0)
    pb_dirty := fun _ => false
    ch_pressure_dirty := fun _ => false
    program_dirty := fun _ => false
    poly_pressure_dirty := fun _ => (0, 0) }

/-- Rust `records.sort_by_key(|r| r.ts_us)` — a stable sort by timestamp.  Any
two stable sorts on the same key agree pointwise, so the stable
`Vec::sort_by_key` is embedded as stable insertion by strict key order:
an element moves past exactly the strictly-smaller keys, so ties keep
their original order. -/
def insertByTs (r : Record) : List Record → List Record
  | [] => [r]
  | x :: xs => if x.ts_us < r.ts_us then x :: insertByTs r xs else r :: x :: xs

/-- The sort applied to the collected records before encoding. -/
def sortByTs : List Record → List Record
  | [] => []
  | r :: rs => insertByTs r (sortByTs rs)

/-- The record list actually encoded by one tick. -/
def tickRecords (snap : DispatchSnapshot) : List Record :=
  sortByTs (collectedRecords snap)

/-- One `dispatch_loop` iteration after the deadline bookkeeping: skip
(`continue`, no callback) when there are no records and both captured drop
counters are zero; otherwise sort by timestamp and encode.  `some packet`
means the host callback is invoked with exactly these bytes. -/
def dispatch_tick (snap : DispatchSnapshot) : Option (List Nat) :=
  if (collectedRecords snap).isEmpty ∧ snap.dropped_raw = 0 ∧ snap.dropped_note = 0
  then none
  else
    some (encode_packet (tickRecords snap) snap.dispatch_ts_us snap.dropped_raw
      snap.dropped_note 0)

/-- The shared-state contents after one tick: the note queue fully
drained, every dirty flag cleared, both counters already reset to zero by
the `swap(0)` capture. -/
def dispatch_tick_post (snap : DispatchSnapshot) : DispatchSnapshot :=
  { snap with
    state := clear_dirty snap.state
    notes := []
    dropped_raw := 0
    dropped_note := 0 }

/-- A state in which channel 0 already stores a nonzero pitch bend whose
dirty flag was consumed by an earlier dispatch: `update_pitch_bend` with
LSB=0, MSB=0 stores bend −8192, then `clear_dirty` plays the earlier
tick's flag clear. -/
def pbPriorState : State := clear_dirty (update_pitch_bend initState 0 0 0 500)

/-- The §8 scenario message: pitch bend, channel 0, LSB=0, MSB=64,
t=1000µs. -/
def pbScenarioMsg : RawMsg :=
  { ts_us := 1000, status := 0xE0, data1 := 0, data2 := 64, len := 3 }

/-- An idle snapshot that captured 3 raw drops and nothing else. -/
def idleSnap3 : DispatchSnapshot :=
  { state := initState
    notes := []
    dropped_raw := 3
    dropped_note := 0
    dispatch_ts_us := 0 }

/-- A filler message used to build a full hand-off queue. -/
def fillerRaw : RawMsg :=
  { ts_us := 0, status := 0x90, data1 := 0, data2 := 0, len := 3 }

/-- A note edge at t=100µs for the ordering scenario. -/
def exampleNote100 : NoteEdge :=
  { ts_us := 100, channel := 0, note := 60, velocity := 90, isOn := true }

/-- A note edge at t=50µs for the ordering scenario. -/
def exampleNote50 : NoteEdge :=
  { ts_us := 50, channel := 0, note := 61, velocity := 0, isOn := false }

/-- The ordering scenario of §8: note edges at timestamps 100 and 50 in
the queue (in that arrival order) and controller 3 dirty at timestamp 75. -/
def exampleSnap : DispatchSnapshot :=
  { state := update_cc initState 0 3 9 75
    notes := [exampleNote100, exampleNote50]
    dropped_raw := 0
    dropped_note := 0
    dispatch_ts_us := 200 }

/-! ## Note-queue accounting model

The life of the note queue between `push_note` (coalescer side) and the
full FIFO drain of each `dispatch_loop` tick. -/

/-- One event touching the note queue: a note edge pushed by `handle_raw`
(status `0x80`/`0x90` with enough bytes), or a dispatch tick draining the
queue. -/
inductive NoteOp where
  | push : Nat → Nat → Nat → Nat → Bool → NoteOp
  | tick : NoteOp

/-- The note queue together with everything ever emitted into packets. -/
structure NoteRun where
  cs : CoalState
  emitted : List Record

/-- Apply one event: a push goes through `push_note`; a tick drains the
whole queue FIFO into note records exactly as `dispatch_loop` does. -/
def note_step (s : NoteRun) : NoteOp → NoteRun
  | NoteOp.push ts ch note vel isOn =>
      { s with cs := push_note s.cs ts ch note vel isOn }
  | NoteOp.tick =>
      { cs := { s.cs with notes := [] },
        emitted := s.emitted ++ s.cs.notes.map noteRecord }

/-- Run a sequence of events from a start state. -/
def note_run (s : NoteRun) (ops : List NoteOp) : NoteRun :=
  ops.foldl note_step s

/-- The freshly opened input: empty queue, zero drops, nothing emitted. -/
def initNoteRun : NoteRun :=
  { cs := initCoal, emitted := [] }

/-- Whether an event is a push. -/
def NoteOp.isPush : NoteOp → Bool
  | NoteOp.push _ _ _ _ _ => true
  | NoteOp.tick => false

/-- Number of note edges pushed in an event sequence. -/
def pushCount (ops : List NoteOp) : Nat :=
  (ops.filter NoteOp.isPush).length

/-! ## Handle table (`lib.rs`) -/

/-- The process globals of `lib.rs`: `NEXT_HANDLE: AtomicU32` (starts
at 1) and the keys of the `INPUTS` map.  The opened connections behind the
keys are external driver objects and carry no modelled state. -/
structure Registry where
  next_handle_ctr : Nat
  inputs : List Nat
deriving DecidableEq, Repr

/-- The initial globals: `NEXT_HANDLE = 1`, empty table. -/
def initRegistry : Registry :=
  { next_handle_ctr := 1, inputs := [] }

/-- Rust `fn next_handle`: `NEXT_HANDLE.fetch_add(1, Relaxed)` — returns the
old value and stores the incremented value; a `u32` wraps modulo `2^32`. -/
def next_handle (r : Registry) : Nat × Registry :=
  (r.next_handle_ctr,
    { r with next_handle_ctr := (r.next_handle_ctr + 1) % 2 ^ 32 })

/-- Rust `midi_open_input` after argument unmarshalling: `openOk` abstracts the
outcome of `input::open_input` (port lookup and driver connect are
external I/O).  `Err` (and the null/empty/invalid port-id paths) return 0
and leave the table unchanged; `Ok` draws a fresh id from `next_handle`,
inserts the connection under it and returns it. -/
def midi_open_input (r : Registry) (openOk : Bool) : Nat × Registry :=
  if openOk then
    ((next_handle r).1,
      { (next_handle r).2 with inputs := (next_handle r).2.inputs ++ [(next_handle r).1] })
  else (0, r)

/-- Rust `midi_close_input`: `INPUTS.remove(&handle)`; when present the handle
is closed (external teardown), when absent nothing happens. -/
def midi_close_input (r : Registry) (handle : Nat) : Registry :=
  { r with inputs := r.inputs.erase handle }

end MidiBridge

namespace MidiBridge

/-! Wire-codec lemmas -/

theorem toLE_length (w v : Nat) : (toLE w v).length = w := by
  induction w generalizing v with
  | zero => rfl
  | succ w ih => simp [toLE, ih]

theorem readLEAux_toLE_append (w v : Nat) (rest : List Nat) :
    readLEAux w (toLE w v ++ rest) = v % 256 ^ w := by
  induction w generalizing v with
  | zero => simp [toLE, readLEAux, Nat.mod_one]
  | succ w ih =>
      have h : (256 : Nat) ^ (w + 1) = 256 * 256 ^ w := by ring
      simp only [toLE, List.cons_append, readLEAux, h]
      rw [show (toLE w (v / 256)).append rest = toLE w (v / 256) ++ rest from rfl,
        ih, Nat.mod_mul]

theorem readLE_toLE_prefix (w v : Nat) (rest : List Nat) :
    readLE (toLE w v ++ rest) 0 w = v % 256 ^ w := by
  simp [readLE, readLEAux_toLE_append]

theorem readLE_toLE_skip (wp vp : Nat) (rest : List Nat) (off w : Nat) :
    readLE (toLE wp vp ++ rest) (wp + off) w = readLE rest off w := by
  unfold readLE
  rw [show (toLE wp vp ++ rest).drop (wp + off)
        = ((toLE wp vp ++ rest).drop wp).drop off by rw [List.drop_drop],
      show (toLE wp vp ++ rest).drop wp = rest from
        List.drop_left' (toLE_length wp vp)]

theorem encRecord_length (r : Record) : (encRecord r).length = 16 := by
  simp [encRecord, toLE_length]

theorem flatMap_enc_length (rs : List Record) :
    (rs.flatMap encRecord).length = 16 * rs.length := by
  induction rs with
  | nil => simp
  | cons r rs ih =>
      simp only [List.flatMap_cons, List.length_append, encRecord_length, ih,
        List.length_cons]
      ring

theorem encode_packet_length (rs : List Record) (ts dr dn fl : Nat) :
    (encode_packet rs ts dr dn fl).length = 32 + 16 * rs.length := by
  rw [encode_packet]
  simp only [List.length_append, toLE_length, flatMap_enc_length]

/-- Normalize the 32 header bytes of an encoded packet to an explicit cons
chain, leaving the record bytes as the tail. -/
theorem encode_drop_32 (rs : List Record) (ts dr dn fl : Nat) :
    (encode_packet rs ts dr dn fl).drop 32 = rs.flatMap encRecord := by
  simp [encode_packet, toLE, List.cons_append, List.nil_append]

theorem encode_readback_magic (rs : List Record) (ts dr dn fl : Nat) :
    readLE (encode_packet rs ts dr dn fl) 0 4 = MAGIC := by
  simp [encode_packet, toLE, List.cons_append, List.nil_append, MAGIC, VERSION,
    readLE, readLEAux]

theorem encode_readback_version (rs : List Record) (ts dr dn fl : Nat) :
    readLE (encode_packet rs ts dr dn fl) 4 2 = VERSION := by
  simp [encode_packet, toLE, List.cons_append, List.nil_append, MAGIC, VERSION,
    readLE, readLEAux]

theorem encode_readback_flags (rs : List Record) (ts dr dn fl : Nat) :
    readLE (encode_packet rs ts dr dn fl) 6 2 = fl % 2 ^ 16 := by
  simp only [encode_packet, toLE, List.cons_append, List.nil_append, readLE,
    readLEAux, List.drop_succ_cons, List.drop_zero]
  norm_num
  omega

theorem encode_readback_ts (rs : List Record) (ts dr dn fl : Nat) :
    readLE (encode_packet rs ts dr dn fl) 8 8 = ts % 2 ^ 64 := by
  simp only [encode_packet, toLE, List.cons_append, List.nil_append, readLE,
    readLEAux, List.drop_succ_cons, List.drop_zero]
  norm_num
  omega

theorem encode_readback_dropped_raw (rs : List Record) (ts dr dn fl : Nat) :
    readLE (encode_packet rs ts dr dn fl) 16 4 = dr % 2 ^ 32 := by
  simp only [encode_packet, toLE, List.cons_append, List.nil_append, readLE,
    readLEAux, List.drop_succ_cons, List.drop_zero]
  norm_num
  omega

theorem encode_readback_dropped_note (rs : List Record) (ts dr dn fl : Nat) :
    readLE (encode_packet rs ts dr dn fl) 20 4 = dn % 2 ^ 32 := by
  simp only [encode_packet, toLE, List.cons_append, List.nil_append, readLE,
    readLEAux, List.drop_succ_cons, List.drop_zero]
  norm_num
  omega

theorem encode_readback_count (rs : List Record) (ts dr dn fl : Nat) :
    readLE (encode_packet rs ts dr dn fl) 24 4 = rs.length % 2 ^ 32 := by
  simp only [encode_packet, toLE, List.cons_append, List.nil_append, readLE,
    readLEAux, List.drop_succ_cons, List.drop_zero]
  norm_num
  omega

theorem encode_readback_reserved (rs : List Record) (ts dr dn fl : Nat) :
    readLE (encode_packet rs ts dr dn fl) 28 4 = 0 := by
  simp [encode_packet, toLE, List.cons_append, List.nil_append, readLE,
    readLEAux]

theorem flatMap_enc_drop (rs : List Record) (i : Nat) :
    (rs.flatMap encRecord).drop (16 * i) = (rs.drop i).flatMap encRecord := by
  induction i generalizing rs with
  | zero => simp
  | succ i ih =>
      cases rs with
      | nil => simp
      | cons r rs =>
          rw [List.flatMap_cons,
            show 16 * (i + 1) = 16 + 16 * i by ring,
            show (16 : Nat) + 16 * i = 16 + 16 * i from rfl,
            ← List.drop_drop,
            List.drop_left' (encRecord_length r), List.drop_succ_cons, ih]

theorem readLE_encode_record (rs : List Record) (ts dr dn fl : Nat) (i : Nat)
    (hi : i < rs.length) (k w : Nat) :
    readLE (encode_packet rs ts dr dn fl) (32 + (16 * i + k)) w
      = readLE (encRecord rs[i] ++ (rs.drop (i + 1)).flatMap encRecord) k w := by
  unfold readLE
  rw [show 32 + (16 * i + k) = 32 + 16 * i + k by ring, ← List.drop_drop,
    ← List.drop_drop, encode_drop_32, flatMap_enc_drop,
    List.drop_eq_getElem_cons hi, List.flatMap_cons]

/-- Field-by-field readback of the 16 bytes of one well-formed record. -/
theorem encRecord_fields (r : Record) (rest : List Nat) (h : r.wf) :
    readLE (encRecord r ++ rest) 0 8 = r.ts_us ∧
    readLE (encRecord r ++ rest) 8 1 = r.kind ∧
    readLE (encRecord r ++ rest) 9 1 = r.channel ∧
    readLE (encRecord r ++ rest) 10 1 = r.a ∧
    readLE (encRecord r ++ rest) 11 1 = r.b ∧
    decodeI16 (readLE (encRecord r ++ rest) 12 2) = r.v16 ∧
    readLE (encRecord r ++ rest) 14 2 = r.extra := by
  obtain ⟨h1, h2, h3, h4, h5, h6, h7, h8⟩ := h
  refine ⟨?_, ?_, ?_, ?_, ?_, ?_, ?_⟩ <;>
    simp only [encRecord, toLE, List.cons_append, List.nil_append, readLE,
      readLEAux, List.drop_succ_cons, List.drop_zero, decodeI16] <;>
    omega

/-! ## Claim C1 -/

/-- C1 counterexample: the claim asserts a 24-byte header, so the packet
for an empty record list would have to be 24 bytes long; `encode_packet`
writes a 32-byte header (the eight listed fields total 4+2+2+8+4+4+4+4 =
32 bytes), so the packet of the empty list has length 32, not 24. -/
theorem C1_counterexample :
    (encode_packet [] 0 0 0 0).length = 32 ∧
    (encode_packet [] 0 0 0 0).length ≠ 24 := by
  constructor <;> decide

/-- C1 (amended): the packet is a 32-byte little-endian header — magic
(4 bytes), version (2), flags (2), dispatch timestamp in microseconds (8),
raw-drop count (4), note-drop count (4), record count (4), reserved (4) —
followed by one 16-byte record per input record: timestamp (8), kind tag
(1, with controller=1, pitch-bend=2, channel-pressure=3, poly-pressure=4,
program=5, note=6), channel (1), field a (1), field b (1), signed 16-bit
value (2), extra flags (2).  Stated for header values and records inside
the ranges of their Rust integer types. -/
theorem C1_wire_layout (rs : List Record) (ts dr dn fl : Nat)
    (hts : ts < 2 ^ 64) (hdr : dr < 2 ^ 32) (hdn : dn < 2 ^ 32)
    (hfl : fl < 2 ^ 16) (hwf : ∀ r ∈ rs, r.wf) :
    (KIND_CC = 1 ∧ KIND_PB = 2 ∧ KIND_CH_PRESS = 3 ∧ KIND_POLY_PRESS = 4 ∧
      KIND_PROG = 5 ∧ KIND_NOTE = 6) ∧
    (encode_packet rs ts dr dn fl).length = 32 + 16 * rs.length ∧
    readLE (encode_packet rs ts dr dn fl) 0 4 = MAGIC ∧
    readLE (encode_packet rs ts dr dn fl) 4 2 = VERSION ∧
    readLE (encode_packet rs ts dr dn fl) 6 2 = fl ∧
    readLE (encode_packet rs ts dr dn fl) 8 8 = ts ∧
    readLE (encode_packet rs ts dr dn fl) 16 4 = dr ∧
    readLE (encode_packet rs ts dr dn fl) 20 4 = dn ∧
    readLE (encode_packet rs ts dr dn fl) 24 4 = rs.length % 2 ^ 32 ∧
    readLE (encode_packet rs ts dr dn fl) 28 4 = 0 ∧
    ∀ i, ∀ hi : i < rs.length,
      readLE (encode_packet rs ts dr dn fl) (32 + (16 * i + 0)) 8 = rs[i].ts_us ∧
      readLE (encode_packet rs ts dr dn fl) (32 + (16 * i + 8)) 1 = rs[i].kind ∧
      readLE (encode_packet rs ts dr dn fl) (32 + (16 * i + 9)) 1 = rs[i].channel ∧
      readLE (encode_packet rs ts dr dn fl) (32 + (16 * i + 10)) 1 = rs[i].a ∧
      readLE (encode_packet rs ts dr dn fl) (32 + (16 * i + 11)) 1 = rs[i].b ∧
      decodeI16 (readLE (encode_packet rs ts dr dn fl) (32 + (16 * i + 12)) 2)
        = rs[i].v16 ∧
      readLE (encode_packet rs ts dr dn fl) (32 + (16 * i + 14)) 2 = rs[i].extra := by
  refine ⟨by decide, encode_packet_length rs ts dr dn fl,
    encode_readback_magic rs ts dr dn fl,
    encode_readback_version rs ts dr dn fl, ?_, ?_, ?_, ?_,
    encode_readback_count rs ts dr dn fl,
    encode_readback_reserved rs ts dr dn fl, ?_⟩
  · rw [encode_readback_flags, Nat.mod_eq_of_lt hfl]
  · rw [encode_readback_ts, Nat.mod_eq_of_lt hts]
  · rw [encode_readback_dropped_raw, Nat.mod_eq_of_lt hdr]
  · rw [encode_readback_dropped_note, Nat.mod_eq_of_lt hdn]
  · intro i hi
    have hr := encRecord_fields rs[i] ((rs.drop (i + 1)).flatMap encRecord)
      (hwf rs[i] (List.getElem_mem hi))
    refine ⟨?_, ?_, ?_, ?_, ?_, ?_, ?_⟩ <;>
      rw [readLE_encode_record rs ts dr dn fl i hi]
    · exact hr.1
    · exact hr.2.1
    · exact hr.2.2.1
    · exact hr.2.2.2.1
    · exact hr.2.2.2.2.1
    · exact hr.2.2.2.2.2.1
    · exact hr.2.2.2.2.2.2

/-- C1 witness: the amended layout theorem applied to a concrete packet of
one note record. -/
theorem C1_witness :
    readLE (encode_packet [sampleRecord] 1000 2 3 4) 0 4 = MAGIC ∧
    (encode_packet [sampleRecord] 1000 2 3 4).length = 48 ∧
    readLE (encode_packet [sampleRecord] 1000 2 3 4) 16 4 = 2 ∧
    readLE (encode_packet [sampleRecord] 1000 2 3 4) (32 + (16 * 0 + 8)) 1 = 6 ∧
    decodeI16 (readLE (encode_packet [sampleRecord] 1000 2 3 4) (32 + (16 * 0 + 12)) 2)
      = -7 := by
  have h := C1_wire_layout [sampleRecord] 1000 2 3 4 (by norm_num)
    (by norm_num) (by norm_num) (by norm_num) (by decide)
  have hrec := h.2.2.2.2.2.2.2.2.2.2 0 (by decide)
  exact ⟨h.2.2.1, h.2.1, h.2.2.2.2.2.2.1, hrec.2.1, hrec.2.2.2.2.2.1⟩

/-! ## Claim C10 -/

/-- C10 counterexample: for a record list of length `2 ^ 32` the claim
says the record-count field reads back `2 ^ 32`, but `records.len() as
u32` truncates and the field reads back 0. -/
theorem C10_counterexample :
    (List.replicate (2 ^ 32) sampleRecord).length = 2 ^ 32 ∧
    readLE (encode_packet (List.replicate (2 ^ 32) sampleRecord) 0 0 0 0) 24 4 = 0 ∧
    (0 : Nat) ≠ 2 ^ 32 := by
  refine ⟨List.length_replicate .., ?_, by norm_num⟩
  rw [encode_readback_count, List.length_replicate, Nat.mod_self]

/-- C10 (amended): for every record list of length n and any header
values, `encode_packet` returns a buffer of length exactly 32 + 16·n and
never fails or returns an empty buffer; the record-count field in the
header equals n mod 2^32, hence equals n whenever n < 2^32. -/
theorem C10_codec_total (rs : List Record) (ts dr dn fl : Nat) :
    (encode_packet rs ts dr dn fl).length = 32 + 16 * rs.length ∧
    encode_packet rs ts dr dn fl ≠ [] ∧
    readLE (encode_packet rs ts dr dn fl) 24 4 = rs.length % 2 ^ 32 ∧
    (rs.length < 2 ^ 32 → readLE (encode_packet rs ts dr dn fl) 24 4 = rs.length) := by
  refine ⟨encode_packet_length rs ts dr dn fl, ?_,
    encode_readback_count rs ts dr dn fl, ?_⟩
  · intro hnil
    have := congrArg List.length hnil
    rw [encode_packet_length] at this
    simp at this
  · intro hlt
    rw [encode_readback_count, Nat.mod_eq_of_lt hlt]

/-- C10 witness: the codec totality theorem at a concrete two-record
packet, with the in-range length hypothesis discharged. -/
theorem C10_witness :
    (encode_packet [sampleRecord, sampleRecord] 9 8 7 6).length = 64 ∧
    readLE (encode_packet [sampleRecord, sampleRecord] 9 8 7 6) 24 4 = 2 := by
  have h := C10_codec_total [sampleRecord, sampleRecord] 9 8 7 6
  exact ⟨h.1, h.2.2.2 (by norm_num)⟩

/-! ## Claim C2 -/

/-- Setting a bit via `set_bit` makes that bit read back as set. -/
theorem bitIsSet_set_bit (bits : Nat × Nat) (index : Nat) :
    bitIsSet (set_bit bits index) index = true := by
  unfold set_bit bitIsSet
  split <;>
    simp [Nat.testBit_or, Nat.testBit_shiftLeft, Nat.sub_self,
      Nat.testBit_one_zero]

/-- C2: for every parameter slot (controller, pitch bend, channel
pressure, program, poly pressure), applying an update whose value differs
from the stored value writes the value and timestamp and marks the slot
dirty; applying an update whose value equals the stored value leaves the
whole state (dirty flag, value and timestamp included) unchanged. -/
theorem C2_latest_value_wins (st : State) (ch ctrl v ts lsb msb note : Nat) :
    ((st.cc ch ctrl ≠ v →
        (update_cc st ch ctrl v ts).cc ch ctrl = v ∧
        (update_cc st ch ctrl v ts).cc_ts ch ctrl = ts ∧
        bitIsSet ((update_cc st ch ctrl v ts).cc_dirty ch) ctrl = true) ∧
      (st.cc ch ctrl = v → update_cc st ch ctrl v ts = st)) ∧
    ((st.pb ch ≠ (((msb <<< 7) ||| lsb : Nat) : Int) - 8192 →
        (update_pitch_bend st ch lsb msb ts).pb ch
          = (((msb <<< 7) ||| lsb : Nat) : Int) - 8192 ∧
        (update_pitch_bend st ch lsb msb ts).pb_ts ch = ts ∧
        (update_pitch_bend st ch lsb msb ts).pb_dirty ch = true) ∧
      (st.pb ch = (((msb <<< 7) ||| lsb : Nat) : Int) - 8192 →
        update_pitch_bend st ch lsb msb ts = st)) ∧
    ((st.ch_pressure ch ≠ v →
        (update_ch_pressure st ch v ts).ch_pressure ch = v ∧
        (update_ch_pressure st ch v ts).ch_pressure_ts ch = ts ∧
        (update_ch_pressure st ch v ts).ch_pressure_dirty ch = true) ∧
      (st.ch_pressure ch = v → update_ch_pressure st ch v ts = st)) ∧
    ((st.program ch ≠ v →
        (update_program st ch v ts).program ch = v ∧
        (update_program st ch v ts).program_ts ch = ts ∧
        (update_program st ch v ts).program_dirty ch = true) ∧
      (st.program ch = v → update_program st ch v ts = st)) ∧
    ((st.poly_pressure ch note ≠ v →
        (update_poly_pressure st ch note v ts).poly_pressure ch note = v ∧
        (update_poly_pressure st ch note v ts).poly_pressure_ts ch note = ts ∧
        bitIsSet ((update_poly_pressure st ch note v ts).poly_pressure_dirty ch)
          note = true) ∧
      (st.poly_pressure ch note = v → update_poly_pressure st ch note v ts = st)) := by
  refine ⟨?_, ?_, ?_, ?_, ?_⟩ <;> refine ⟨fun h => ?_, fun h => ?_⟩
  · simp [update_cc, h, bitIsSet_set_bit]
  · simp [update_cc, h]
  · simp [update_pitch_bend, h]
  · simp [update_pitch_bend, h]
  · simp [update_ch_pressure, h]
  · simp [update_ch_pressure, h]
  · simp [update_program, h]
  · simp [update_program, h]
  · simp [update_poly_pressure, h, bitIsSet_set_bit]
  · simp [update_poly_pressure, h]

/-- C2 witness: a fresh state takes controller 7 ← 5 as a transition
(value, timestamp and dirty bit all written) and a redundant channel
pressure 0 ← 0 as a no-op. -/
theorem C2_witness :
    (update_cc initState 0 7 5 100).cc 0 7 = 5 ∧
    (update_cc initState 0 7 5 100).cc_ts 0 7 = 100 ∧
    bitIsSet ((update_cc initState 0 7 5 100).cc_dirty 0) 7 = true ∧
    update_ch_pressure initState 0 0 100 = initState := by
  have h := C2_latest_value_wins initState 0 7 5 100 1 64 3
  have h0 := C2_latest_value_wins initState 0 7 0 100 1 64 3
  have hcc := h.1.1 (by decide)
  exact ⟨hcc.1, hcc.2.1, hcc.2.2, h0.2.2.1.2 (by decide)⟩

/-! ## Claim C5 -/

/-- C5: a dispatch tick whose collected record list is empty and whose
captured drop counters are both zero encodes nothing and does not invoke
the host callback (the loop body hits `continue`). -/
theorem C5_idle_tick_no_callback (snap : DispatchSnapshot)
    (hrec : collectedRecords snap = [])
    (hdr : snap.dropped_raw = 0) (hdn : snap.dropped_note = 0) :
    dispatch_tick snap = none := by
  unfold dispatch_tick
  rw [if_pos]
  exact ⟨by simp [hrec], hdr, hdn⟩

/-- C5 witness: the freshly opened input produces no callback on an idle
tick. -/
theorem C5_witness :
    dispatch_tick
      { state := initState, notes := [], dropped_raw := 0, dropped_note := 0,
        dispatch_ts_us := 77 } = none := by
  exact C5_idle_tick_no_callback _ (by decide) rfl rfl

/-! ## Claim C8 -/

/-- C8: the ingest callback silently drops — without touching the queue or
any drop counter — empty messages and messages whose status byte is
outside [0x80, 0xEF]; `handle_raw` silently drops — with no state, queue
or counter change — messages shorter than the minimum for their status
nibble (3 bytes for note off/on, poly pressure, control change, pitch
bend; 2 bytes for program change and channel pressure). -/
theorem C8_malformed_silently_dropped :
    (∀ (s : IngestState) (ts : Nat) (msg : List Nat),
        msg = [] ∨ msg.headD 0 < 0x80 ∨ 0xF0 ≤ msg.headD 0 →
        input_callback false ts msg s = s) ∧
    (∀ (cs : CoalState) (raw : RawMsg),
        ((raw.status &&& 0xF0 = 0x80 ∨ raw.status &&& 0xF0 = 0x90 ∨
            raw.status &&& 0xF0 = 0xA0 ∨ raw.status &&& 0xF0 = 0xB0 ∨
            raw.status &&& 0xF0 = 0xE0) ∧ raw.len < 3) ∨
        ((raw.status &&& 0xF0 = 0xC0 ∨ raw.status &&& 0xF0 = 0xD0) ∧ raw.len < 2) →
        handle_raw raw cs = cs) := by
  constructor
  · intro s ts msg h
    unfold input_callback
    rw [if_neg (by simp)]
    rcases h with h | h | h
    · rw [if_pos h]
    · by_cases hm : msg = []
      · rw [if_pos hm]
      · rw [if_neg hm, if_pos (Or.inl h)]
    · by_cases hm : msg = []
      · rw [if_pos hm]
      · rw [if_neg hm, if_pos (Or.inr h)]
  · intro cs raw h
    rcases h with ⟨hstat, hlen⟩ | ⟨hstat, hlen⟩
    · rcases hstat with hs | hs | hs | hs | hs <;>
        simp [handle_raw, hs, show ¬ raw.len ≥ 3 by omega]
    · rcases hstat with hs | hs <;>
        simp [handle_raw, hs, show ¬ raw.len ≥ 2 by omega]

/-- C8 witness: a realtime status byte (0xF8) is ignored by ingest, and a
2-byte note-on is ignored by the coalescer, both without any state
change. -/
theorem C8_witness :
    input_callback false 5 [0xF8] { queue := [], dropped_raw := 0 }
      = { queue := [], dropped_raw := 0 } ∧
    handle_raw { ts_us := 5, status := 0x93, data1 := 60, data2 := 10, len := 2 }
      initCoal = initCoal := by
  refine ⟨C8_malformed_silently_dropped.1 _ 5 [0xF8] ?_,
    C8_malformed_silently_dropped.2 initCoal _ ?_⟩
  · exact Or.inr (Or.inr (by decide))
  · exact Or.inl ⟨Or.inr (Or.inl (by decide)), by decide⟩

/-! ## Claim C6 -/

/-- C6: ingesting one more valid message while the bounded hand-off queue
is at capacity fails the non-blocking `try_send`, increments the raw-drop
counter by exactly one and leaves the queue unchanged (composing the drop
into the returned state — nothing blocks or retries); the next tick whose
captured raw-drop count is nonzero always encodes a packet whose raw-drop
header field (offset 16) equals the captured counter value, and the
`swap(0)` capture leaves the live counter at zero after the tick. -/
theorem C6_backpressure :
    (∀ (s : IngestState) (ts status : Nat) (rest : List Nat),
        0x80 ≤ status → status < 0xF0 → s.queue.length = RAW_QUEUE_CAP →
        input_callback false ts (status :: rest) s
          = { s with dropped_raw := s.dropped_raw + 1 }) ∧
    (∀ snap : DispatchSnapshot,
        snap.dropped_raw ≠ 0 → snap.dropped_raw < 2 ^ 32 →
        dispatch_tick snap
            = some (encode_packet (tickRecords snap) snap.dispatch_ts_us
                snap.dropped_raw snap.dropped_note 0) ∧
          readLE (encode_packet (tickRecords snap) snap.dispatch_ts_us
              snap.dropped_raw snap.dropped_note 0) 16 4 = snap.dropped_raw) ∧
    (∀ snap : DispatchSnapshot, (dispatch_tick_post snap).dropped_raw = 0) := by
  refine ⟨?_, ?_, fun snap => rfl⟩
  · intro s ts status rest h1 h2 h3
    unfold input_callback try_send_count
    rw [if_neg (by simp), if_neg (by simp)]
    simp only [List.headD_cons]
    rw [if_neg (by omega), if_pos (by omega)]
  · intro snap hne hlt
    constructor
    · unfold dispatch_tick
      rw [if_neg]
      intro h
      exact hne h.2.1
    · rw [encode_readback_dropped_raw, Nat.mod_eq_of_lt hlt]

/-- C6 witness: a full queue of 4096 messages plus one more valid
controller message counts exactly one raw drop without touching the
queue, and an idle tick that captured 3 raw drops emits a packet whose
raw-drop field reads back 3 with the counter left at zero. -/
theorem C6_witness :
    input_callback false 9 [0xB0, 1, 2]
        { queue := List.replicate 4096 fillerRaw, dropped_raw := 0 }
      = { queue := List.replicate 4096 fillerRaw, dropped_raw := 1 } ∧
    readLE (encode_packet (tickRecords idleSnap3) 0 3 0 0) 16 4 = 3 ∧
    (dispatch_tick_post idleSnap3).dropped_raw = 0 := by
  refine ⟨C6_backpressure.1 _ 9 0xB0 [1, 2] (by norm_num) (by norm_num)
      (by rw [List.length_replicate]; rfl), ?_, C6_backpressure.2.2 _⟩
  exact (C6_backpressure.2.1 idleSnap3 (by decide) (by decide)).2

/-! ## Claim C7 -/

/-- C7 counterexample: the §8 scenario as stated — freshly opened input,
pitch-bend message LSB=0, MSB=64 (bend = 0) on channel 0 at t=1000µs —
produces NO dispatched record at all: the computed bend 0 equals the
initial stored bend 0, so the slot is never marked dirty and the next
tick skips the callback entirely (`dispatch_tick = none`). -/
theorem C7_counterexample :
    dispatch_tick
      { state := (handle_raw pbScenarioMsg initCoal).state
        notes := (handle_raw pbScenarioMsg initCoal).notes
        dropped_raw := 0
        dropped_note := (handle_raw pbScenarioMsg initCoal).dropped_note
        dispatch_ts_us := 4000 } = none := by
  decide

/-- C7 (amended): for every pitch-bend message with 7-bit data bytes LSB
and MSB, the stored value after the update is the 14-bit combination (MSB
shifted left 7, or-ed with LSB) minus the center 8192, a signed value in
[-8192, 8191]; a message with LSB=0 and MSB=64 on channel 0 at t=1000µs
yields a dispatched record with kind pitch-bend, channel 0, signed value
0, timestamp 1000 provided the previously stored bend on channel 0
differs from 0 (from the freshly opened state, whose stored bend is
already 0, it yields no record). -/
theorem C7_pitch_bend (st : State) (ch lsb msb ts : Nat)
    (hl : lsb < 128) (hm : msb < 128) :
    (update_pitch_bend st ch lsb msb ts).pb ch
        = ((msb * 128 + lsb : Nat) : Int) - 8192 ∧
    -8192 ≤ (update_pitch_bend st ch lsb msb ts).pb ch ∧
    (update_pitch_bend st ch lsb msb ts).pb ch ≤ 8191 ∧
    tickRecords
        { state := (handle_raw pbScenarioMsg
            { state := pbPriorState, notes := [], dropped_note := 0 }).state
          notes := []
          dropped_raw := 0
          dropped_note := 0
          dispatch_ts_us := 2000 }
      = [{ ts_us := 1000, kind := KIND_PB, channel := 0, a := 0, b := 0,
           v16 := 0, extra := 0 }] := by
  have hor : ((msb <<< 7) ||| lsb : Nat) = msb * 128 + lsb := by
    have h2 := Nat.mul_add_lt_is_or (show lsb < 2 ^ 7 by omega) msb
    rw [Nat.shiftLeft_eq, show msb * 2 ^ 7 = 2 ^ 7 * msb by ring, ← h2]
    ring
  have hval : (update_pitch_bend st ch lsb msb ts).pb ch
      = ((msb * 128 + lsb : Nat) : Int) - 8192 := by
    unfold update_pitch_bend
    simp only [hor]
    split
    · simp
    · next h => exact not_not.mp (by simpa using h)
  refine ⟨hval, ?_, ?_, by decide⟩
  · rw [hval]
    have : (0 : Int) ≤ ((msb * 128 + lsb : Nat) : Int) := Int.natCast_nonneg _
    omega
  · rw [hval]
    have : ((msb * 128 + lsb : Nat) : Int) ≤ 16383 := by
      have : msb * 128 + lsb ≤ 16383 := by omega
      exact_mod_cast this
    omega

/-- C7 witness: the pitch-bend formula at LSB=1, MSB=64 from a fresh
state: raw 8193, stored bend 1, inside the signed range. -/
theorem C7_witness :
    (update_pitch_bend initState 0 1 64 42).pb 0 = 1 ∧
    -8192 ≤ (update_pitch_bend initState 0 1 64 42).pb 0 ∧
    (update_pitch_bend initState 0 1 64 42).pb 0 ≤ 8191 := by
  have h := C7_pitch_bend initState 0 1 64 42 (by norm_num) (by norm_num)
  refine ⟨?_, h.2.1, h.2.2.1⟩
  rw [h.1]
  norm_num

/-! ## Claim C9 -/

/-- C9 counterexample: `NEXT_HANDLE` is a `u32` and `fetch_add` wraps: the
counter value 0 is reachable after 2^32 − 1 successful opens, and at that
state a successful open registers the connection under id 0 and returns
handle 0 — the zero return no longer means failure, and the id sequence is
no longer increasing. -/
theorem C9_counterexample :
    ((fun r => (midi_open_input r true).2)^[2 ^ 32 - 1] initRegistry).next_handle_ctr
        = 0 ∧
    (midi_open_input { next_handle_ctr := 0, inputs := [] } true).1 = 0 ∧
    (midi_open_input { next_handle_ctr := 0, inputs := [] } true).2.inputs = [0] := by
  refine ⟨?_, rfl, rfl⟩
  have key : ∀ k : Nat,
      ((fun r => (midi_open_input r true).2)^[k] initRegistry).next_handle_ctr
        = (1 + k) % 2 ^ 32 := by
    intro k
    induction k with
    | zero => decide
    | succ k ih =>
        rw [Function.iterate_succ_apply']
        show ((midi_open_input _ true).2).next_handle_ctr = _
        rw [midi_open_input, if_pos rfl]
        show (_ + 1) % 2 ^ 32 = _
        rw [ih, Nat.mod_add_mod]
        omega
  rw [key, show 1 + (2 ^ 32 - 1) = 2 ^ 32 by norm_num, Nat.mod_self]

/-- C9 (amended): as long as the 32-bit id counter has not wrapped to 0
(true for the first 2^32 − 1 opens), a successful open returns the
current counter value as a non-zero handle, registers the connection
under it and advances the counter (strictly increasing until the `u32`
wrap); a failed open returns 0 and leaves the table unchanged; closing a
handle that is not in the table is a safe no-op. -/
theorem C9_handle_table (r : Registry) (hnd : Nat)
    (hctr : r.next_handle_ctr ≠ 0) :
    ((midi_open_input r true).1 = r.next_handle_ctr ∧
      (midi_open_input r true).1 ≠ 0 ∧
      (midi_open_input r true).2.inputs = r.inputs ++ [r.next_handle_ctr] ∧
      (midi_open_input r true).2.next_handle_ctr
        = (r.next_handle_ctr + 1) % 2 ^ 32 ∧
      (r.next_handle_ctr + 1 < 2 ^ 32 →
        (midi_open_input r true).2.next_handle_ctr = r.next_handle_ctr + 1)) ∧
    midi_open_input r false = (0, r) ∧
    (hnd ∉ r.inputs → midi_close_input r hnd = r) := by
  refine ⟨⟨rfl, hctr, rfl, rfl, fun hlt => Nat.mod_eq_of_lt hlt⟩, rfl, fun hmem => ?_⟩
  unfold midi_close_input
  rw [List.erase_of_not_mem hmem]

/-- C9 witness: the first open from the initial registry yields handle 1
and table [1]; a failed open yields 0; closing the absent handle 5 is a
no-op. -/
theorem C9_witness :
    (midi_open_input initRegistry true).1 = 1 ∧
    (midi_open_input initRegistry true).2.inputs = [1] ∧
    (midi_open_input initRegistry true).2.next_handle_ctr = 2 ∧
    midi_open_input initRegistry false = (0, initRegistry) ∧
    midi_close_input initRegistry 5 = initRegistry := by
  have h := C9_handle_table initRegistry 5 (by decide)
  exact ⟨h.1.1, by rw [h.1.2.2.1]; rfl, h.1.2.2.2.2 (by decide), h.2.1,
    h.2.2 (by decide)⟩

/-! ## Claim C3 -/

theorem pushCount_cons (op : NoteOp) (ops : List NoteOp) :
    pushCount (op :: ops) = (if op.isPush then 1 else 0) + pushCount ops := by
  unfold pushCount
  rw [List.filter_cons]
  split <;> simp [Nat.add_comm]

theorem pushCount_append (a b : List NoteOp) :
    pushCount (a ++ b) = pushCount a + pushCount b := by
  simp [pushCount, List.filter_append]

/-- One event preserves the count balance: emitted + queued + dropped
grows by exactly one per push and is untouched by a tick. -/
theorem note_step_measure (s : NoteRun) (op : NoteOp) :
    (note_step s op).emitted.length + (note_step s op).cs.notes.length
        + (note_step s op).cs.dropped_note
      = s.emitted.length + s.cs.notes.length + s.cs.dropped_note
        + (if op.isPush then 1 else 0) := by
  cases op with
  | push ts ch note vel isOn =>
      simp only [note_step, NoteOp.isPush, if_pos]
      unfold push_note
      split
      next hfull =>
        simp only [List.length_append, List.length_tail, List.length_cons,
          List.length_nil]
        have : 1 ≤ s.cs.notes.length := le_trans (by norm_num [NOTE_QUEUE_CAP]) hfull
        omega
      next =>
        simp only [List.length_append, List.length_cons, List.length_nil]
        omega
  | tick =>
      simp only [note_step, NoteOp.isPush, List.length_append, List.length_map,
        List.length_nil]
      rw [if_neg (by decide)]
      omega

/-- The balance over a whole run. -/
theorem note_run_measure (ops : List NoteOp) (s : NoteRun) :
    (note_run s ops).emitted.length + (note_run s ops).cs.notes.length
        + (note_run s ops).cs.dropped_note
      = s.emitted.length + s.cs.notes.length + s.cs.dropped_note + pushCount ops := by
  induction ops generalizing s with
  | nil => simp [note_run, pushCount]
  | cons op ops ih =>
      rw [show note_run s (op :: ops) = note_run (note_step s op) ops from rfl,
        ih, note_step_measure, pushCount_cons]
      omega

/-- A run that ends in a tick leaves the queue empty. -/
theorem note_run_final_tick_empty (ops : List NoteOp) (s : NoteRun) :
    (note_run s (ops ++ [NoteOp.tick])).cs.notes = [] := by
  rw [note_run, List.foldl_append]
  rfl

/-- C3: over any sequence of note pushes and dispatch ticks ending in a
tick, the number of note records emitted across all packets equals the
number of edges pushed minus the note-drop counter (equivalently, emitted
+ dropped = pushed); a push onto a full queue (capacity 4096) removes the
oldest edge and increments the note-drop counter by exactly one; two
pushes of identical edges under capacity enqueue two separate entries
(edges are never merged); and a tick drains the whole queue FIFO, one
record per edge. -/
theorem C3_note_accounting :
    (∀ ops : List NoteOp,
        (note_run initNoteRun (ops ++ [NoteOp.tick])).emitted.length
            + (note_run initNoteRun (ops ++ [NoteOp.tick])).cs.dropped_note
          = pushCount ops ∧
        (note_run initNoteRun (ops ++ [NoteOp.tick])).emitted.length
          = pushCount ops
            - (note_run initNoteRun (ops ++ [NoteOp.tick])).cs.dropped_note) ∧
    (∀ (cs : CoalState) (ts ch note vel : Nat) (isOn : Bool),
        cs.notes.length = NOTE_QUEUE_CAP →
        push_note cs ts ch note vel isOn
          = { cs with
              notes := cs.notes.tail
                ++ [{ ts_us := ts, channel := ch, note := note,
                      velocity := vel, isOn := isOn }]
              dropped_note := cs.dropped_note + 1 }) ∧
    (∀ (cs : CoalState) (ts ch note vel : Nat) (isOn : Bool),
        cs.notes.length + 1 < NOTE_QUEUE_CAP →
        (push_note (push_note cs ts ch note vel isOn) ts ch note vel isOn).notes
          = cs.notes
            ++ [{ ts_us := ts, channel := ch, note := note, velocity := vel,
                  isOn := isOn },
                { ts_us := ts, channel := ch, note := note, velocity := vel,
                  isOn := isOn }]) ∧
    (∀ s : NoteRun,
        (note_step s NoteOp.tick).emitted = s.emitted ++ s.cs.notes.map noteRecord) := by
  refine ⟨?_, ?_, ?_, fun s => rfl⟩
  · intro ops
    have hinv := note_run_measure (ops ++ [NoteOp.tick]) initNoteRun
    rw [note_run_final_tick_empty, pushCount_append] at hinv
    have e0 : initNoteRun.emitted.length = 0 := rfl
    have n0 : initNoteRun.cs.notes.length = 0 := rfl
    have d0 : initNoteRun.cs.dropped_note = 0 := rfl
    have hpt : pushCount [NoteOp.tick] = 0 := rfl
    rw [e0, n0, d0, hpt] at hinv
    simp only [List.length_nil] at hinv
    omega
  · intro cs ts ch note vel isOn h
    simp only [push_note]
    rw [if_pos (by omega)]
  · intro cs ts ch note vel isOn h
    have h1 : push_note cs ts ch note vel isOn
        = { cs with
            notes := cs.notes
              ++ [{ ts_us := ts, channel := ch, note := note, velocity := vel,
                    isOn := isOn }] } := by
      simp only [push_note]
      rw [if_neg (by omega)]
    rw [h1]
    simp only [push_note]
    rw [if_neg (by simp only [List.length_append, List.length_cons, List.length_nil]; omega)]
    simp [List.append_assoc]

/-- C3 witness: two pushes then a drain emit exactly two records with no
drops, and one push onto a full 4096-edge queue counts exactly one drop
while keeping the queue at capacity. -/
theorem C3_witness :
    (note_run initNoteRun
        [NoteOp.push 10 0 60 90 true, NoteOp.push 20 0 60 0 false,
          NoteOp.tick]).emitted.length = 2 ∧
    (push_note { state := initState, notes := List.replicate 4096 exampleNote50, dropped_note := 0 } 1 2 3 4 true).dropped_note = 1 ∧
    (push_note { state := initState, notes := List.replicate 4096 exampleNote50, dropped_note := 0 } 1 2 3 4 true).notes.length = 4096 := by
  have hfull : (List.replicate 4096 exampleNote50).length = NOTE_QUEUE_CAP := by
    rw [List.length_replicate]
    rfl
  have h2 := C3_note_accounting.2.1
    { state := initState, notes := List.replicate 4096 exampleNote50, dropped_note := 0 }
    1 2 3 4 true hfull
  refine ⟨?_, ?_, ?_⟩
  · have h := (C3_note_accounting.1
      [NoteOp.push 10 0 60 90 true, NoteOp.push 20 0 60 0 false]).1
    have hd : (note_run initNoteRun
        [NoteOp.push 10 0 60 90 true, NoteOp.push 20 0 60 0 false,
          NoteOp.tick]).cs.dropped_note = 0 := by decide
    have hp : pushCount [NoteOp.push 10 0 60 90 true, NoteOp.push 20 0 60 0 false] = 2 := rfl
    rw [show ([NoteOp.push 10 0 60 90 true, NoteOp.push 20 0 60 0 false]
        ++ [NoteOp.tick])
      = [NoteOp.push 10 0 60 90 true, NoteOp.push 20 0 60 0 false, NoteOp.tick]
      from rfl, hp, hd] at h
    omega
  · rw [h2]
  · rw [h2]
    simp only [List.length_append, List.length_tail, List.length_replicate,
      List.length_cons, List.length_nil]

/-! ## Claim C4: stable sort lemmas -/

theorem mem_insertByTs (r y : Record) (l : List Record) :
    y ∈ insertByTs r l ↔ y = r ∨ y ∈ l := by
  induction l with
  | nil => simp [insertByTs]
  | cons x xs ih =>
      unfold insertByTs
      split
      · simp only [List.mem_cons, ih]
        tauto
      · simp only [List.mem_cons]

theorem pairwise_insertByTs (r : Record) (l : List Record)
    (h : l.Pairwise (fun a b => a.ts_us ≤ b.ts_us)) :
    (insertByTs r l).Pairwise (fun a b => a.ts_us ≤ b.ts_us) := by
  induction l with
  | nil => simp [insertByTs]
  | cons x xs ih =>
      rw [List.pairwise_cons] at h
      obtain ⟨hx, hxs⟩ := h
      unfold insertByTs
      split
      next hlt =>
        rw [List.pairwise_cons]
        refine ⟨?_, ih hxs⟩
        intro y hy
        rcases (mem_insertByTs r y xs).mp hy with rfl | hy
        · exact le_of_lt hlt
        · exact hx y hy
      next hge =>
        rw [List.pairwise_cons]
        refine ⟨?_, List.pairwise_cons.mpr ⟨hx, hxs⟩⟩
        intro y hy
        rcases List.mem_cons.mp hy with rfl | hy
        · exact le_of_not_lt hge
        · exact le_trans (le_of_not_lt hge) (hx y hy)

theorem sortByTs_pairwise (l : List Record) :
    (sortByTs l).Pairwise (fun a b => a.ts_us ≤ b.ts_us) := by
  induction l with
  | nil => simp [sortByTs]
  | cons r rs ih => exact pairwise_insertByTs r _ ih

theorem insertByTs_perm (r : Record) (l : List Record) :
    List.Perm (insertByTs r l) (r :: l) := by
  induction l with
  | nil => exact List.Perm.refl _
  | cons x xs ih =>
      unfold insertByTs
      split
      · exact (ih.cons x).trans (List.Perm.swap r x xs)
      · exact List.Perm.refl _

theorem sortByTs_perm (l : List Record) : List.Perm (sortByTs l) l := by
  induction l with
  | nil => exact List.Perm.refl _
  | cons r rs ih => exact (insertByTs_perm r _).trans (ih.cons r)

theorem filter_insertByTs (r : Record) (l : List Record) (t : Nat) :
    (insertByTs r l).filter (fun x => x.ts_us == t)
      = if r.ts_us == t
        then r :: l.filter (fun x => x.ts_us == t)
        else l.filter (fun x => x.ts_us == t) := by
  induction l with
  | nil => simp [insertByTs, List.filter_cons, beq_iff_eq]
  | cons x xs ih =>
      unfold insertByTs
      split
      next hlt =>
        by_cases hr : r.ts_us = t
        · have hx : ¬ x.ts_us = t := by omega
          simp [List.filter_cons, ih, hr, hx, beq_iff_eq]
        · simp [List.filter_cons, ih, hr, beq_iff_eq]
      next hge =>
        rw [List.filter_cons]

theorem sortByTs_filter (l : List Record) (t : Nat) :
    (sortByTs l).filter (fun x => x.ts_us == t)
      = l.filter (fun x => x.ts_us == t) := by
  induction l with
  | nil => rfl
  | cons r rs ih =>
      rw [show sortByTs (r :: rs) = insertByTs r (sortByTs rs) from rfl,
        filter_insertByTs, ih, List.filter_cons]

/-! ## Claim C4: trailing-zero scan lemmas -/

theorem tzGo_spec (fuel : Nat) : ∀ n, n ≠ 0 → n ≤ fuel →
    n % 2 ^ tzGo fuel n = 0 ∧ (n / 2 ^ tzGo fuel n) % 2 = 1 := by
  induction fuel with
  | zero => intro n hn hf; omega
  | succ fuel ih =>
      intro n hn hf
      unfold tzGo
      split
      next hodd =>
        refine ⟨by simp [Nat.mod_one], by simpa using hodd⟩
      next heven =>
        have he : n % 2 = 0 := by omega
        have hn2 : n / 2 ≠ 0 := by omega
        have hf2 : n / 2 ≤ fuel := by omega
        obtain ⟨h1, h2⟩ := ih (n / 2) hn2 hf2
        have hpow : (2 : Nat) ^ (1 + tzGo fuel (n / 2))
            = 2 * 2 ^ tzGo fuel (n / 2) := by
          rw [pow_add, pow_one]
        constructor
        · rw [hpow, Nat.mod_mul, he, h1]
        · rw [hpow, ← Nat.div_div_eq_div_mul]
          exact h2

theorem trailing_zeros_spec (n : Nat) (hn : n ≠ 0) :
    n % 2 ^ trailing_zeros n = 0 ∧ (n / 2 ^ trailing_zeros n) % 2 = 1 :=
  tzGo_spec n n hn le_rfl

theorem testBit_trailing_zeros (n : Nat) (hn : n ≠ 0) :
    n.testBit (trailing_zeros n) = true := by
  obtain ⟨hmod, hodd⟩ := trailing_zeros_spec n hn
  set t := trailing_zeros n with ht
  set m := n / 2 ^ t with hm
  have hnm : n = 2 ^ t * m :=
    (Nat.mul_div_cancel' (Nat.dvd_of_mod_eq_zero hmod)).symm
  conv_lhs => rw [hnm]
  rw [Nat.testBit_mul_pow_two]
  simp [hodd]

/-- Rust `val &= val - 1` clears exactly the lowest set bit: the bits of
`n &&& (n - 1)` are those of `n` strictly above `trailing_zeros n`. -/
theorem clear_lowest_testBit (n : Nat) (hn : n ≠ 0) (i : Nat) :
    (n &&& (n - 1)).testBit i
      = (decide (trailing_zeros n < i) && n.testBit i) := by
  obtain ⟨hmod, hodd⟩ := trailing_zeros_spec n hn
  set t := trailing_zeros n with ht
  set m := n / 2 ^ t with hm
  have hnm : n = 2 ^ t * m :=
    (Nat.mul_div_cancel' (Nat.dvd_of_mod_eq_zero hmod)).symm
  have hpos : 0 < 2 ^ t := Nat.two_pow_pos t
  have hm1 : 1 ≤ m := by
    rcases Nat.eq_zero_or_pos m with h0 | h1
    · rw [h0] at hodd
      simp at hodd
    · exact h1
  have hsub : n - 1 = 2 ^ t * (m - 1) + (2 ^ t - 1) := by
    have hm' : m = (m - 1) + 1 := by omega
    calc n - 1
        = 2 ^ t * ((m - 1) + 1) - 1 := by rw [← hm', ← hnm]
      _ = 2 ^ t * (m - 1) + 2 ^ t - 1 := by rw [Nat.mul_add, Nat.mul_one]
      _ = 2 ^ t * (m - 1) + (2 ^ t - 1) := by omega
  have hbit_n : n.testBit i = (decide (i ≥ t) && m.testBit (i - t)) := by
    conv_lhs => rw [hnm]
    rw [Nat.testBit_mul_pow_two]
  have hbit_n1 : (n - 1).testBit i
      = if i < t then true else (m - 1).testBit (i - t) := by
    rw [hsub, Nat.testBit_mul_pow_two_add _ (by omega)]
    split
    next hj => simp [Nat.testBit_two_pow_sub_one, hj]
    next => rfl
  rw [Nat.testBit_and, hbit_n, hbit_n1]
  rcases Nat.lt_trichotomy i t with hlt | heq | hgt
  · simp [show ¬ i ≥ t by omega, show ¬ t < i by omega]
  · subst heq
    rw [if_neg (by omega)]
    simp only [Nat.sub_self, Nat.testBit_zero]
    simp [show ¬ t < t by omega, show ¬ (m - 1) % 2 = 1 by omega]
  · rw [if_neg (by omega)]
    have hit : i - t = (i - t - 1) + 1 := by omega
    have hmm : (m - 1) / 2 = m / 2 := by omega
    rw [hit, Nat.testBit_add_one, Nat.testBit_add_one, hmm]
    simp [show i ≥ t by omega, hgt, Bool.and_self]

theorem mem_collectGo (base fuel : Nat) : ∀ val x, val ≤ fuel →
    x ∈ collectGo base fuel val →
    ∃ i, x = base + i ∧ val.testBit i = true := by
  induction fuel with
  | zero =>
      intro val x _ hx
      simp [collectGo] at hx
  | succ fuel ih =>
      intro val x hf hx
      unfold collectGo at hx
      split at hx
      next => simp at hx
      next hv =>
        rcases List.mem_cons.mp hx with rfl | hx
        · exact ⟨trailing_zeros val, rfl, testBit_trailing_zeros val hv⟩
        · have hle : val &&& (val - 1) ≤ fuel := by
            have h1 : val &&& (val - 1) ≤ val - 1 := Nat.and_le_right
            omega
          obtain ⟨i, rfl, hbit⟩ := ih (val &&& (val - 1)) x hle hx
          rw [clear_lowest_testBit val hv i] at hbit
          simp only [Bool.and_eq_true, decide_eq_true_eq] at hbit
          exact ⟨i, rfl, hbit.2⟩

theorem pairwise_collectGo (base fuel : Nat) : ∀ val, val ≤ fuel →
    (collectGo base fuel val).Pairwise (· < ·) := by
  induction fuel with
  | zero => intro val _; simp [collectGo]
  | succ fuel ih =>
      intro val hf
      unfold collectGo
      split
      next => simp
      next hv =>
        rw [List.pairwise_cons]
        have hle : val &&& (val - 1) ≤ fuel := by
          have h1 : val &&& (val - 1) ≤ val - 1 := Nat.and_le_right
          omega
        refine ⟨?_, ih _ hle⟩
        intro y hy
        obtain ⟨i, rfl, hbit⟩ := mem_collectGo base fuel _ y hle hy
        rw [clear_lowest_testBit val hv i] at hbit
        simp only [Bool.and_eq_true, decide_eq_true_eq] at hbit
        omega

theorem collectGo_bounded (base fuel val bound x : Nat) (hf : val ≤ fuel)
    (hv : val < 2 ^ bound) (hx : x ∈ collectGo base fuel val) :
    x < base + bound := by
  obtain ⟨i, rfl, hbit⟩ := mem_collectGo base fuel val x hf hx
  by_contra hcon
  push_neg at hcon
  have hvi : val < 2 ^ i :=
    lt_of_lt_of_le hv (Nat.pow_le_pow_right (by norm_num) (by omega))
  rw [Nat.testBit_lt_two_pow hvi] at hbit
  simp at hbit

/-- Rust `collect_bitset` emits strictly ascending indices: word 0 gives
indices below 64, word 1 gives 64 plus its bit positions. -/
theorem collect_bitset_sorted (bits : Nat × Nat) (h1 : bits.1 < 2 ^ 64) :
    (collect_bitset bits).Pairwise (· < ·) := by
  unfold collect_bitset
  rw [List.pairwise_append]
  refine ⟨pairwise_collectGo 0 bits.1 bits.1 le_rfl,
    pairwise_collectGo 64 bits.2 bits.2 le_rfl, ?_⟩
  intro a ha b hb
  have ha' : a < 0 + 64 := collectGo_bounded 0 bits.1 bits.1 64 a le_rfl h1 ha
  obtain ⟨i, rfl, _⟩ := mem_collectGo 64 bits.2 bits.2 b le_rfl hb
  omega

/-- C4: in every dispatched packet the encoded record sequence is sorted
by timestamp ascending; the sort is stable, so records with equal
timestamps keep their emission order (for every timestamp the sorted
list filtered to it equals the emission list filtered to it, and the
sorted list is a permutation of the emission list — whose order is notes
drained first, then per channel 0–15 controllers ascending, pitch bend,
channel pressure, program, poly pressure ascending, the controller and
poly-pressure scans being strictly ascending by `collect_bitset`); in
particular note edges at timestamps 100 and 50 plus a dirty controller
change at timestamp 75 dispatch in order 50, 75, 100 (note, controller,
note). -/
theorem C4_tick_ordering :
    (∀ snap : DispatchSnapshot,
        (tickRecords snap).Pairwise (fun a b => a.ts_us ≤ b.ts_us)) ∧
    (∀ (snap : DispatchSnapshot) (t : Nat),
        (tickRecords snap).filter (fun r => r.ts_us == t)
          = (collectedRecords snap).filter (fun r => r.ts_us == t)) ∧
    (∀ snap : DispatchSnapshot,
        List.Perm (tickRecords snap) (collectedRecords snap)) ∧
    (∀ bits : Nat × Nat, bits.1 < 2 ^ 64 →
        (collect_bitset bits).Pairwise (· < ·)) ∧
    (tickRecords exampleSnap).map Record.ts_us = [50, 75, 100] ∧
    (tickRecords exampleSnap).map Record.kind = [KIND_NOTE, KIND_CC, KIND_NOTE] := by
  refine ⟨fun snap => sortByTs_pairwise _, fun snap t => sortByTs_filter _ t,
    fun snap => sortByTs_perm _, fun bits h => collect_bitset_sorted bits h,
    by decide, by decide⟩

/-- C4 witness: the ascending-scan conjunct applied to the concrete
bitset words (3, 5), whose word bound is discharged there. -/
theorem C4_witness : (collect_bitset (3, 5)).Pairwise (· < ·) :=
  C4_tick_ordering.2.2.2.1 (3, 5) (by norm_num)

end MidiBridge
